import Mathlib

/-!
Shallow embedding of `sec_statements.py` (repository FreeThe10Ks): the EDGAR
ingestion pipeline and statement-table reconstruction algorithm.  Python
strings are modelled as Lean `String`; machine integers are `Nat`/`Int`;
fallible parses are `Option`.  Each definition is translated directly from
the source function named in its doc comment.
-/

namespace SecStatements

/-- Characters stripped by Python `str.strip()` / matched by regex `\s`
(ASCII whitespace plus U+00A0, the only non-ASCII whitespace occurring in
this pipeline's data, since `get_text` output has NBSP normalized). -/
def isPySpace (c : Char) : Bool :=
  c = ' ' || c = '\t' || c = '\n' || c = '\r' || c = '\u000b' || c = '\u000c' || c = ' '

/-- Python `str.strip()` on a character list. -/
def stripChars (l : List Char) : List Char :=
  ((l.dropWhile isPySpace).reverse.dropWhile isPySpace).reverse

/-- Python `s.strip()`. -/
def pyStrip (s : String) : String := ⟨stripChars s.data⟩

/-- Python `s.lower()` (ASCII case fold, which covers the pipeline's data). -/
def pyLower (s : String) : String := ⟨s.data.map Char.toLower⟩

/-- Python `s.replace(" ", " ")`. -/
def replaceNbsp (s : String) : String :=
  ⟨s.data.map (fun c => if c = ' ' then ' ' else c)⟩

/-- Python regex `\w` on the data in scope (ASCII alphanumerics and underscore). -/
def isWordChar (c : Char) : Bool := c.isAlphanum || c = '_'

/-- Drop an optional single literal character (models `x?` in a regex where the
rest of the pattern cannot match that character, so the greedy choice is forced). -/
def dropOpt (c : Char) : List Char → List Char
  | [] => []
  | c' :: rest => if c' = c then rest else c' :: rest

/-- The tail of `NUMISH_RE` after the first digit: `[\d,]*([.]\d+)?\s*\)?\s*$`.
In the regex every choice point is forced (greedy classes are followed by
characters outside the class), so a deterministic scan is equivalent. -/
def numishTail (l : List Char) : Bool :=
  let l := l.dropWhile (fun c => c.isDigit || c = ',')
  match l with
  | '.' :: r =>
    match r with
    | d :: _ =>
      if d.isDigit then
        let r := r.dropWhile Char.isDigit
        let r := r.dropWhile isPySpace
        let r := dropOpt ')' r
        (r.dropWhile isPySpace).isEmpty
      else false
    | [] => false
  | r =>
    let r := r.dropWhile isPySpace
    let r := dropOpt ')' r
    (r.dropWhile isPySpace).isEmpty

/-- `NUMISH_RE = ^\s*\(?\s*-?\s*\$?\s*\d[\d,]*([.]\d+)?\s*\)?\s*$` (full match,
as used via `re.match` with a trailing `$`). -/
def numishMatch (l : List Char) : Bool :=
  let l := l.dropWhile isPySpace
  let l := dropOpt '(' l
  let l := l.dropWhile isPySpace
  let l := dropOpt '-' l
  let l := l.dropWhile isPySpace
  let l := dropOpt '$' l
  let l := l.dropWhile isPySpace
  match l with
  | [] => false
  | c :: rest => c.isDigit && numishTail rest

/-- `is_numericish` (sec_statements.py:201): NBSP-normalize, strip, accept the
three dash glyphs, otherwise match `NUMISH_RE`. -/
def is_numericish (s : String) : Bool :=
  let s := pyStrip (replaceNbsp s)
  if s.isEmpty then false
  else if s = "—" || s = "-" || s = "–" then true
  else numishMatch s.data

/-! ## HTTP client retry loop (`SecClient._get`, sec_statements.py:90-113)

One attempt of the loop body is a pure function of the outcome the network
would produce for that attempt (a transport failure, or a response with a
status code and a body size).  Sleeping and backoff arithmetic do not affect
which response is returned, so they are not modelled.  -/

/-- What the network yields on one attempt: a transport failure (an exception
from `session.get`) or a response with status code and `len(r.content)`. -/
inductive Outcome where
  | transportFail
  | resp (status : Nat) (size : Nat)
deriving Repr, DecidableEq

/-- One iteration of the `for _ in range(7)` body of `SecClient._get`:
`some (status, size)` when the iteration executes `return r`, `none` when it
falls through to the next iteration (note that both the oversized-response
`RuntimeError` and the `raise_for_status()` exception are raised inside the
`try` block and caught by the blanket `except Exception`, so they retry). -/
def attemptStep (maxBytes : Nat) (o : Outcome) : Option (Nat × Nat) :=
  match o with
  | .transportFail => none
  | .resp st sz =>
    if st = 200 then
      if maxBytes < sz then none else some (200, sz)
    else if st = 404 then some (404, sz)
    else if st = 429 || st = 500 || st = 502 || st = 503 || st = 504 then none
    else if 400 ≤ st ∧ st < 600 then none
    else some (st, sz)

/-- The retry loop from attempt index `i` with remaining `fuel` iterations;
`none` models the final `raise RuntimeError` after the loop. -/
def secGetAux (maxBytes : Nat) (env : Nat → Outcome) : Nat → Nat → Option (Nat × Nat)
  | _, 0 => none
  | i, fuel + 1 =>
    match attemptStep maxBytes (env i) with
    | some r => some r
    | none => secGetAux maxBytes env (i + 1) fuel

/-- `SecClient._get`: up to 7 attempts; `some (status, size)` is a returned
response, `none` is the trailing `raise RuntimeError`. -/
def secGet (maxBytes : Nat) (env : Nat → Outcome) : Option (Nat × Nat) :=
  secGetAux maxBytes env 0 7

/-- An environment whose first attempt yields a 403 and whose later attempts
yield a small 200 response. -/
def env403then200 : Nat → Outcome :=
  fun n => if n = 0 then .resp 403 10 else .resp 200 10

/-- An environment whose first attempt yields an oversized 200 response and
whose later attempts yield a small one. -/
def envBigThen200 : Nat → Outcome :=
  fun n => if n = 0 then .resp 200 101 else .resp 200 10

/-- An environment that always yields an oversized 200 response. -/
def envAllBig : Nat → Outcome := fun _ => .resp 200 101

/-! ## Filing index walker (`gather_filings`, sec_statements.py:217-247)

The HTTP layer is abstracted away: a submissions page is the four parallel
JSON arrays its `filings.recent` object carries (values modelled as the
strings `str(...)` would produce). -/

/-- The parallel arrays of one submissions page (`recent.get(...) or []`). -/
structure RecentPage where
  form : List String
  filingDate : List String
  reportDate : List String
  accessionNumber : List String
deriving Repr, DecidableEq

/-- One emitted filing row (a dict in the source). -/
structure FilingRow where
  form : String
  filingDate : String
  reportDate : Option String
  accessionNumber : String
deriving Repr, DecidableEq

/-- The entry the `add` closure builds for index `i` of a page.
`reportDate` is `None` when `rdates[i]` is falsy (the empty string). -/
def pageEntry (p : RecentPage) (i : Nat) : FilingRow :=
  { form := p.form.getD i ""
    filingDate := p.filingDate.getD i ""
    reportDate :=
      let r := p.reportDate.getD i ""
      if r.isEmpty then none else some r
    accessionNumber := p.accessionNumber.getD i "" }

/-- The `add` closure of `gather_filings`: zip the four arrays truncated to
`n = min(len(forms), len(fdates), len(rdates), len(accs))`. -/
def addPage (p : RecentPage) : List FilingRow :=
  let n := min (min p.form.length p.filingDate.length)
               (min p.reportDate.length p.accessionNumber.length)
  (List.range n).map (pageEntry p)

/-- `gather_filings`, with fetching abstracted to the list of pages walked
(the base page followed by the extra page files): `add` is applied to each
page in order and the results concatenated. -/
def gather_filings (pages : List RecentPage) : List FilingRow :=
  (pages.map addPage).flatten

/-- A page whose `reportDate` array is missing (`recent.get("reportDate") or []`
yields `[]`) while the other three arrays carry one filing. -/
def pageMissingReportDate : RecentPage :=
  { form := ["10-K"]
    filingDate := ["2024-01-01"]
    reportDate := []
    accessionNumber := ["0000000000-24-000001"] }

end SecStatements

namespace SecStatements

/-! ## C2 -/

/-- C2 counterexample: the claim says the numeric-ish recognizer rejects
`"2024"`, but `NUMISH_RE` matches any plain digit string, so `is_numericish`
accepts `"2024"`. -/
theorem C2_counterexample_2024 : is_numericish "2024" = true := by decide

/-- C2 (amended): the numeric-ish cell recognizer accepts each of `34940`,
`34,940`, `$34,940`, `$ 34,940`, `(4,774)`, `($ 4,774)`, `-123`, `—`, `-`,
`–`, and also accepts `2024` (a bare digit string matches `NUMISH_RE`);
it rejects `Assets` and the empty string. -/
theorem C2_numericish_accepts_rejects :
    is_numericish "34940" = true ∧ is_numericish "34,940" = true ∧
    is_numericish "$34,940" = true ∧ is_numericish "$ 34,940" = true ∧
    is_numericish "(4,774)" = true ∧ is_numericish "($ 4,774)" = true ∧
    is_numericish "-123" = true ∧ is_numericish "—" = true ∧
    is_numericish "-" = true ∧ is_numericish "–" = true ∧
    is_numericish "Assets" = false ∧ is_numericish "" = false ∧
    is_numericish "2024" = true := by decide

/-! ## C1 -/

/-- C1 counterexample: the first attempt yields a 403 (a 4xx other than 404),
yet the fetch succeeds with the 200 response of the second attempt — so the
client retried after the 403 instead of raising it terminally on that
attempt, contradicting the claim. -/
theorem C1_counterexample_403_retried :
    env403then200 0 = Outcome.resp 403 10 ∧
    secGet 100 env403then200 = some (200, 10) := by decide

/-- C1 (amended): a 4xx status other than 404 is raised by
`raise_for_status()` inside the `try` block, caught by the blanket
`except Exception`, and retried with backoff like a transport failure: if
the first attempt yields such a status and later attempts yield a 200
within the size cap, the client returns that 200 response. -/
theorem C1_other4xx_is_retried (mb : Nat) (env : Nat → Outcome)
    (st sz0 szr : Nat) (h4 : 400 ≤ st) (h5 : st < 500) (hn : st ≠ 404)
    (h0 : env 0 = .resp st sz0) (h1 : ∀ n, 1 ≤ n → env n = .resp 200 szr)
    (hsz : szr ≤ mb) :
    secGet mb env = some (200, szr) := by
  have hst200 : st ≠ 200 := by omega
  have hstep0 : attemptStep mb (env 0) = none := by
    rw [h0]
    simp only [attemptStep, if_neg hst200, if_neg hn]
    by_cases hr : st = 429 || st = 500 || st = 502 || st = 503 || st = 504
    · simp [hr]
    · simp only [hr, Bool.false_eq_true, if_false]
      have : 400 ≤ st ∧ st < 600 := ⟨h4, by omega⟩
      rw [if_pos this]
  have hstep1 : attemptStep mb (env 1) = some (200, szr) := by
    rw [h1 1 (by omega)]
    simp [attemptStep, Nat.not_lt.mpr hsz]
  simp [secGet, secGetAux, hstep0, hstep1]

/-- Witness for `C1_other4xx_is_retried` at a concrete environment. -/
theorem C1_other4xx_is_retried_witness :
    secGet 100 env403then200 = some (200, 10) :=
  C1_other4xx_is_retried 100 env403then200 403 10 10
    (by decide) (by decide) (by decide) (by decide)
    (fun n hn => by
      have : n ≠ 0 := by omega
      simp [env403then200, this])
    (by decide)

/-! ## C4 -/

/-- C4 counterexample: the first attempt yields a 200 response exceeding the
byte cap, yet the fetch succeeds with the second attempt's small response —
the oversized response was retried, not fatal to the fetch. -/
theorem C4_counterexample_oversize_retried :
    envBigThen200 0 = Outcome.resp 200 101 ∧
    secGet 100 envBigThen200 = some (200, 10) := by decide

/-- C4 (amended): an oversized 200 response raises a `RuntimeError` inside
the `try` block, which the blanket `except Exception` catches, so it is
retried with backoff like a transport failure; only when all 7 attempts
yield oversized 200 responses does the client raise an error to the caller
(and the oversized body is never returned). -/
theorem C4_oversize_exhausts_retries (mb : Nat) (env : Nat → Outcome)
    (h : ∀ n, n < 7 → ∃ sz, env n = .resp 200 sz ∧ mb < sz) :
    secGet mb env = none := by
  have step : ∀ n, n < 7 → attemptStep mb (env n) = none := by
    intro n hn
    obtain ⟨sz, he, hsz⟩ := h n hn
    rw [he]
    simp [attemptStep, hsz]
  simp [secGet, secGetAux, step 0 (by omega), step 1 (by omega),
    step 2 (by omega), step 3 (by omega), step 4 (by omega),
    step 5 (by omega), step 6 (by omega)]

/-- Witness for `C4_oversize_exhausts_retries` at a concrete environment. -/
theorem C4_oversize_exhausts_retries_witness :
    secGet 100 envAllBig = none :=
  C4_oversize_exhausts_retries 100 envAllBig
    (fun n _ => ⟨101, rfl, by omega⟩)

/-! ## C6 -/

/-- C6 counterexample: a page whose `reportDate` array is absent while
`form`, `filingDate` and `accessionNumber` each carry one filing produces
zero entries, because `add` truncates to the minimum length of all four
arrays including `reportDate`. -/
theorem C6_counterexample_missing_reportDate :
    pageMissingReportDate.form.length = 1 ∧
    pageMissingReportDate.reportDate = [] ∧
    addPage pageMissingReportDate = [] ∧
    gather_filings [pageMissingReportDate] = [] := by decide

/-- C6 (amended): the walker truncates each page to the minimum common
length of all four parallel arrays, `reportDate` included — a missing or
shorter `reportDate` array shortens (possibly to zero) the emitted
sequence.  Tolerance of missing report dates is per item only: an entry
whose `reportDate` value is the empty string is recorded as absent. -/
theorem C6_addPage_min_zip (p : RecentPage) :
    (addPage p).length =
      min (min p.form.length p.filingDate.length)
          (min p.reportDate.length p.accessionNumber.length) ∧
    ∀ i : Nat,
      (addPage p)[i]? =
        if i < min (min p.form.length p.filingDate.length)
                   (min p.reportDate.length p.accessionNumber.length)
        then some (pageEntry p i) else none := by
  constructor
  · simp [addPage]
  · intro i
    simp only [addPage, List.getElem?_map, List.getElem?_range]
    split <;> simp_all <;> omega

end SecStatements

namespace SecStatements

/-! ## 10-K selector (`pick_10ks`, sec_statements.py:250-278)

Dates are modelled as integers (days); `parse_ymd` results appear as the
`Option Int` fields of the input rows, and `dt.date.today()` is the `today`
parameter.  `int(years_lookback * 365.25)` is exact float arithmetic
truncated toward zero, i.e. `years * 1461 / 4` in natural division. -/

/-- The `Filing` dataclass. -/
structure Filing where
  form : String
  filing_date : Int
  report_date : Option Int
  accession : String
deriving Repr, DecidableEq

/-- An input row as consumed by `pick_10ks` (the dict fields it reads,
with the two date strings already put through `parse_ymd`). -/
structure RawFiling where
  form : String
  filingDate : Option Int
  reportDate : Option Int
  accessionNumber : String
deriving Repr, DecidableEq

/-- `cutoff = dt.date.today() - dt.timedelta(days=int(years_lookback * 365.25))`. -/
def cutoffOf (today : Int) (years : Nat) : Int :=
  today - (years * 1461 / 4 : Nat)

/-- The filter part of `pick_10ks`: keep rows whose stripped form is an
accepted 10-K form, whose filing date parsed and is not before the cutoff,
and whose stripped accession is non-empty. -/
def pickFilter (rows : List RawFiling) (cutoff : Int) (include_amends : Bool) :
    List Filing :=
  rows.filterMap (fun r =>
    let form := pyStrip r.form
    if form = "10-K" || (include_amends && form = "10-K/A") then
      match r.filingDate with
      | none => none
      | some fd =>
        if fd < cutoff then none
        else
          let acc := pyStrip r.accessionNumber
          if acc.isEmpty then none
          else some ⟨form, fd, r.reportDate, acc⟩
    else none)

/-- Stable insertion for a descending sort by filing date, modelling
`filings.sort(key=lambda f: f.filing_date, reverse=True)` (a new element is
placed after all already-placed elements with the same date). -/
def insertByDateDesc (f : Filing) : List Filing → List Filing
  | [] => [f]
  | g :: t => if g.filing_date < f.filing_date then f :: g :: t
              else g :: insertByDateDesc f t

/-- Descending stable sort by filing date. -/
def sortByDateDesc (l : List Filing) : List Filing :=
  l.foldl (fun acc f => insertByDateDesc f acc) []

/-- The dedup-and-truncate loop of `pick_10ks`: skip accessions already in
`seen`; after appending, `break` as soon as `len(out) >= limit` (note the
check runs after the append, so even `limit = 0` lets one element through). -/
def dedupTake (limit : Nat) (seen : List String) (n : Nat) :
    List Filing → List Filing
  | [] => []
  | f :: rest =>
    if seen.contains f.accession then dedupTake limit seen n rest
    else if limit ≤ n + 1 then [f]
    else f :: dedupTake limit (f.accession :: seen) (n + 1) rest

/-- `pick_10ks`. -/
def pick_10ks (rows : List RawFiling) (today : Int) (years_lookback : Nat)
    (limit : Nat) (include_amends : Bool) : List Filing :=
  dedupTake limit [] 0
    (sortByDateDesc (pickFilter rows (cutoffOf today years_lookback) include_amends))

/-- A single qualifying 10-K row. -/
def exRawFiling : RawFiling :=
  { form := "10-K", filingDate := some 100, reportDate := none
    accessionNumber := "0000000000-24-000001" }

/-- The output of `dedupTake` is at most `max 1 (limit - n)` long: the
`break` runs only after an append, so one element always gets through. -/
theorem dedupTake_length (l : List Filing) :
    ∀ (limit : Nat) (seen : List String) (n : Nat),
      (dedupTake limit seen n l).length ≤ max 1 (limit - n) := by
  induction l with
  | nil => intro limit seen n; simp [dedupTake]
  | cons f rest ih =>
    intro limit seen n
    simp only [dedupTake]
    split
    · exact ih limit seen n
    · split
      · simp
      · simp only [List.length_cons]
        have := ih limit (f.accession :: seen) (n + 1)
        omega

/-- Everything `dedupTake` emits comes from its input list. -/
theorem dedupTake_subset (l : List Filing) :
    ∀ (limit : Nat) (seen : List String) (n : Nat) (g : Filing),
      g ∈ dedupTake limit seen n l → g ∈ l := by
  induction l with
  | nil => intro limit seen n g h; simp [dedupTake] at h
  | cons f rest ih =>
    intro limit seen n g h
    simp only [dedupTake] at h
    split at h
    · exact List.mem_cons_of_mem f (ih limit seen n g h)
    · split at h
      · simp at h; simp [h]
      · rcases List.mem_cons.mp h with h | h
        · simp [h]
        · exact List.mem_cons_of_mem f (ih limit _ (n + 1) g h)

/-- `dedupTake` output has pairwise distinct accessions, none of them in
`seen`. -/
theorem dedupTake_nodup (l : List Filing) :
    ∀ (limit : Nat) (seen : List String) (n : Nat),
      (dedupTake limit seen n l).Pairwise
          (fun a b => a.accession ≠ b.accession) ∧
        ∀ g ∈ dedupTake limit seen n l, seen.contains g.accession = false := by
  induction l with
  | nil => intro limit seen n; simp [dedupTake]
  | cons f rest ih =>
    intro limit seen n
    simp only [dedupTake]
    split
    · exact ih limit seen n
    · rename_i hseen
      split
      · constructor
        · simp
        · intro g hg
          simp at hg
          subst hg
          simpa using hseen
      · obtain ⟨hpw, hmem⟩ := ih limit (f.accession :: seen) (n + 1)
        constructor
        · refine List.Pairwise.cons ?_ hpw
          intro g hg
          have := hmem g hg
          simp [List.contains_cons] at this
          intro hEq
          exact this.1 hEq.symm
        · intro g hg
          rcases List.mem_cons.mp hg with h | h
          · subst h; simpa using hseen
          · have := hmem g h
            simp [List.contains_cons] at this
            simpa using this.2

/-- Membership is preserved by the descending-date insertion. -/
theorem mem_insertByDateDesc (f g : Filing) (l : List Filing) :
    g ∈ insertByDateDesc f l ↔ g = f ∨ g ∈ l := by
  induction l with
  | nil => simp [insertByDateDesc]
  | cons h t ih =>
    simp only [insertByDateDesc]
    split <;> simp [ih] <;> tauto

/-- Membership is preserved by the descending-date sort. -/
theorem mem_sortByDateDesc (g : Filing) (l : List Filing) :
    g ∈ sortByDateDesc l ↔ g ∈ l := by
  suffices h : ∀ acc, g ∈ l.foldl (fun acc f => insertByDateDesc f acc) acc ↔
      g ∈ acc ∨ g ∈ l by
    simpa [sortByDateDesc] using h []
  induction l with
  | nil => simp
  | cons f rest ih =>
    intro acc
    simp only [List.foldl_cons, ih, mem_insertByDateDesc, List.mem_cons]
    tauto

/-- Every filing surviving the filter has a filing date at or after the
cutoff. -/
theorem pickFilter_cutoff (rows : List RawFiling) (cutoff : Int)
    (am : Bool) (g : Filing) (h : g ∈ pickFilter rows cutoff am) :
    cutoff ≤ g.filing_date := by
  obtain ⟨r, -, heq⟩ := List.mem_filterMap.mp h
  dsimp only at heq
  split at heq
  · cases hfd : r.filingDate with
    | none => rw [hfd] at heq; exact absurd heq (by simp)
    | some fd =>
      rw [hfd] at heq
      simp only at heq
      split at heq
      · exact absurd heq (by simp)
      · split at heq
        · exact absurd heq (by simp)
        · rename_i hlt _
          have hg : g.filing_date = fd := by cases heq; rfl
          omega
  · exact absurd heq (by simp)

end SecStatements

namespace SecStatements

/-! ## C8 -/

/-- C8 counterexample: with `limit = 0` and one qualifying filing, the
selector returns one filing, because the `len(out) >= limit` break is
checked only after an append — contradicting "at most `limit` filings". -/
theorem C8_counterexample_limit_zero :
    ¬ (pick_10ks [exRawFiling] 0 5 0 false).length ≤ 0 := by decide

/-- C8 (amended): 10-K selection returns at most `max 1 limit` filings (for
`limit ≥ 1` that is at most `limit`; for `limit = 0` one filing can slip
through the post-append break), every returned filing has a filing date no
older than today minus `int(years·365.25)` days, and the returned accession
numbers are pairwise distinct. -/
theorem C8_pick_10ks_bounds (rows : List RawFiling) (today : Int)
    (years limit : Nat) (am : Bool) :
    (pick_10ks rows today years limit am).length ≤ max 1 limit ∧
    (∀ f ∈ pick_10ks rows today years limit am,
        cutoffOf today years ≤ f.filing_date) ∧
    (pick_10ks rows today years limit am).Pairwise
        (fun a b => a.accession ≠ b.accession) := by
  refine ⟨?_, ?_, ?_⟩
  · simpa using dedupTake_length _ limit [] 0
  · intro f hf
    have h1 := dedupTake_subset _ limit [] 0 f hf
    have h2 := (mem_sortByDateDesc f _).mp h1
    exact pickFilter_cutoff rows _ am f h2
  · exact (dedupTake_nodup _ limit [] 0).1

/-- Witness for `C8_pick_10ks_bounds` at a concrete filing list. -/
theorem C8_pick_10ks_bounds_witness :
    (pick_10ks [exRawFiling] 0 5 2 false).length ≤ max 1 2 ∧
    cutoffOf 0 5 ≤
      (Filing.mk "10-K" 100 none "0000000000-24-000001").filing_date :=
  ⟨(C8_pick_10ks_bounds [exRawFiling] 0 5 2 false).1,
   (C8_pick_10ks_bounds [exRawFiling] 0 5 2 false).2.1 _ (by decide)⟩

end SecStatements

namespace SecStatements

/-! ## Regex searches over cell text (sec_statements.py:26-27, 210-214)

`YEAR_RE = \b(19|20)\d{2}\b` and
`HEADER_WORD_RE = \b(months|years)\s+ended\b|\bas\s+of\b|\bended\b`
(the latter case-insensitive), both used via `.search`, i.e. a match may
start at any position. -/

/-- Word boundary before position `i` (the pattern continues with a word
character there). -/
def boundaryBefore (l : List Char) (i : Nat) : Bool :=
  i == 0 || !isWordChar (l.getD (i - 1) ' ')

/-- `YEAR_RE` matched at position `i`. -/
def yearAt (l : List Char) (i : Nat) : Bool :=
  match l.drop i with
  | a :: b :: c :: d :: rest =>
    ((a = '1' && b = '9') || (a = '2' && b = '0')) && c.isDigit && d.isDigit &&
      boundaryBefore l i &&
      (match rest with | [] => true | e :: _ => !isWordChar e)
  | _ => false

/-- `YEAR_RE.search(s)` is truthy. -/
def hasYear (s : String) : Bool :=
  (List.range s.data.length).any (yearAt s.data)

/-- `\s+` then the literal `w` then `\b`, matched at the start of `r`. -/
def wsThenWord (w : List Char) (r : List Char) : Bool :=
  let r' := r.dropWhile isPySpace
  decide (r'.length < r.length) && w.isPrefixOf r' &&
    (match r'.drop w.length with | [] => true | e :: _ => !isWordChar e)

/-- One alternative of `HEADER_WORD_RE` matched at position `i` of the
lowercased text. -/
def headerWordAt (l : List Char) (i : Nat) : Bool :=
  boundaryBefore l i &&
    (('m' :: "onths".data).isPrefixOf (l.drop i) && wsThenWord "ended".data (l.drop (i + 6)) ||
     ('y' :: "ears".data).isPrefixOf (l.drop i) && wsThenWord "ended".data (l.drop (i + 5)) ||
     ('a' :: "s".data).isPrefixOf (l.drop i) && wsThenWord "of".data (l.drop (i + 2)) ||
     ('e' :: "nded".data).isPrefixOf (l.drop i) &&
       (match l.drop (i + 5) with | [] => true | e :: _ => !isWordChar e))

/-- `HEADER_WORD_RE.search(s)` is truthy (pattern is case-insensitive). -/
def hasHeaderWord (s : String) : Bool :=
  let l := (pyLower s).data
  (List.range l.length).any (headerWordAt l)

/-- `row_has_header_hint` (sec_statements.py:210). -/
def row_has_header_hint (row : List String) : Bool :=
  let blob := pyStrip (replaceNbsp (String.intercalate " " row))
  if blob.isEmpty then false
  else hasYear blob || hasHeaderWord blob

/-- `values_blank` (sec_statements.py:614): all value columns (cells after
the label) are blank after stripping. -/
def values_blank (row : List String) : Bool :=
  row.tail.all (fun c => (pyStrip c).isEmpty)

/-- Per-row metadata carried alongside the table (`{"concepts": [...]}`
after extraction, plus the `scaffold` flag added by the scaffolding
filter); the `{}` default used by the header merger is `default`. -/
structure RowMeta where
  concepts : List String
  scaffold : Bool
deriving Repr, DecidableEq, Inhabited

/-! ## Header merger (`merge_multiline_headers`, sec_statements.py:515-550) -/

/-- `max(len(r) for r in rows)` (0 on an empty list; the source only
evaluates it on non-empty lists). -/
def maxWidth (rows : List (List String)) : Nat :=
  rows.foldl (fun m r => max m r.length) 0

/-- `r.extend([""] * (width - len(r)))`. -/
def padTo (w : Nat) (r : List String) : List String :=
  r ++ List.replicate (w - r.length) ""

/-- The three row-local conditions under which a row joins the header block
(the loop `break`s at the first row failing any of them). -/
def headerish (r : List String) : Bool :=
  let vals := r.tail.filter (fun v => !(pyStrip v).isEmpty)
  !vals.isEmpty && vals.all (fun v => !is_numericish v) && row_has_header_hint r

/-- Length of the header block taken from the first `fuel` rows
(`for r in rows[:10]` with the break conditions of `headerish`). -/
def takeHeaderBlockLen : Nat → List (List String) → Nat
  | 0, _ => 0
  | _ + 1, [] => 0
  | fuel + 1, r :: rest =>
    if headerish r then takeHeaderBlockLen fuel rest + 1 else 0

/-- The per-column concatenation loop building `cols` from the header
block (space-joined non-empty stripped parts of column `j + 1`). -/
def mergeCols (colCount : Nat) (block : List (List String)) : List String :=
  (List.range colCount).map (fun j =>
    block.foldl (fun acc hr =>
      let part := pyStrip (hr.getD (j + 1) "")
      if part.isEmpty then acc else pyStrip (acc ++ " " ++ part)) "")

/-- `merged = [header_block[0][0]] + cols`. -/
def mergedHeaderRow (width : Nat) (prows : List (List String)) (b : Nat) :
    List String :=
  (prows.headD []).headD "" :: mergeCols (width - 1) (prows.take b)

/-- `merge_multiline_headers`. -/
def merge_multiline_headers (rows : List (List String)) (indent_px : List Nat)
    (meta : List RowMeta) : List (List String) × List Nat × List RowMeta :=
  if rows.isEmpty then ([], [], [])
  else
    let width := maxWidth rows
    let prows := rows.map (padTo width)
    let b := takeHeaderBlockLen 10 prows
    if b < 2 then (prows, indent_px, meta)
    else
      (mergedHeaderRow width prows b :: prows.drop b,
       indent_px.headD 0 :: indent_px.drop b,
       meta.headD default :: meta.drop b)

/-- The accumulator only grows under the running-maximum fold. -/
theorem foldl_max_acc_le (l : List (List String)) :
    ∀ acc : Nat, acc ≤ l.foldl (fun m r => max m r.length) acc := by
  induction l with
  | nil => intro acc; simp
  | cons r t ih =>
    intro acc
    exact le_trans (le_max_left acc r.length) (ih (max acc r.length))

/-- Every member's length is bounded by the running-maximum fold. -/
theorem mem_le_foldl_max (l : List (List String)) :
    ∀ (acc : Nat) (r : List String), r ∈ l →
      r.length ≤ l.foldl (fun m x => max m x.length) acc := by
  induction l with
  | nil => intro acc r h; simp at h
  | cons x t ih =>
    intro acc r h
    rcases List.mem_cons.mp h with h | h
    · subst h
      exact le_trans (le_max_right acc r.length) (foldl_max_acc_le t _)
    · exact ih _ r h

/-- Every row's length is bounded by `maxWidth`. -/
theorem mem_le_maxWidth {r : List String} {rows : List (List String)}
    (h : r ∈ rows) : r.length ≤ maxWidth rows :=
  mem_le_foldl_max rows 0 r h

/-- Length after padding. -/
theorem length_padTo (w : Nat) (r : List String) :
    (padTo w r).length = max w r.length := by
  simp [padTo]; omega

/-- Padding a row already at the target width is the identity. -/
theorem padTo_of_length {w : Nat} {r : List String} (h : r.length = w) :
    padTo w r = r := by
  simp [padTo, h]

/-- All padded rows have length exactly `maxWidth rows`. -/
theorem mem_map_padTo_length {rows : List (List String)} {r : List String}
    (h : r ∈ rows.map (padTo (maxWidth rows))) :
    r.length = maxWidth rows := by
  obtain ⟨r0, hr0, rfl⟩ := List.mem_map.mp h
  rw [length_padTo]
  exact max_eq_left (mem_le_maxWidth hr0)

/-- The running-maximum fold over a non-empty list of uniform lengths. -/
theorem foldl_max_const {w : Nat} :
    ∀ (l : List (List String)), (∀ r ∈ l, r.length = w) → l ≠ [] →
      ∀ acc : Nat, l.foldl (fun m r => max m r.length) acc = max acc w := by
  intro l
  induction l with
  | nil => intro _ h; exact absurd rfl h
  | cons x t ih =>
    intro hlen _ acc
    have hx : x.length = w := hlen x (by simp)
    by_cases ht : t = []
    · subst ht; simp [hx]
    · rw [List.foldl_cons, hx, ih (fun r hr => hlen r (List.mem_cons_of_mem x hr)) ht (max acc w)]
      simp [max_assoc]

/-- `maxWidth` of a non-empty list of uniform lengths. -/
theorem maxWidth_const {w : Nat} {l : List (List String)}
    (hlen : ∀ r ∈ l, r.length = w) (hne : l ≠ []) : maxWidth l = w := by
  rw [maxWidth, foldl_max_const l hlen hne 0]
  omega

/-- Padding a list of uniform-length rows to that length is the identity. -/
theorem map_padTo_id {w : Nat} {l : List (List String)}
    (hlen : ∀ r ∈ l, r.length = w) : l.map (padTo w) = l := by
  have : ∀ r ∈ l, padTo w r = r := fun r hr => padTo_of_length (hlen r hr)
  rw [List.map_congr_left this]
  simp

/-- A positive header block starts with a `headerish` row. -/
theorem blockLen_pos_head {f : Nat} {l : List (List String)}
    (h : 1 ≤ takeHeaderBlockLen f l) :
    ∃ r t, l = r :: t ∧ headerish r = true := by
  match f, l with
  | 0, _ => simp [takeHeaderBlockLen] at h
  | _ + 1, [] => simp [takeHeaderBlockLen] at h
  | fuel + 1, r :: t =>
    refine ⟨r, t, rfl, ?_⟩
    by_contra hr
    simp [takeHeaderBlockLen, hr] at h

/-- A `headerish` row has at least one value column. -/
theorem headerish_length {r : List String} (h : headerish r = true) :
    2 ≤ r.length := by
  simp only [headerish, Bool.and_eq_true, Bool.not_eq_true'] at h
  have hne : r.tail.filter (fun v => !(pyStrip v).isEmpty) ≠ [] := by
    intro hnil
    rw [hnil] at h
    simp at h
  have : r.tail ≠ [] := by
    intro ht
    exact hne (by simp [ht])
  cases r with
  | nil => simp at this
  | cons a t =>
    cases t with
    | nil => simp at this
    | cons b t2 => simp

/-- Where the header block stops before exhausting its fuel, either the
rows ran out or the next row is not `headerish`. -/
theorem blockLen_stop :
    ∀ (f : Nat) (l : List (List String)), takeHeaderBlockLen f l < f →
      l.drop (takeHeaderBlockLen f l) = [] ∨
        ∃ r t, l.drop (takeHeaderBlockLen f l) = r :: t ∧ headerish r = false := by
  intro f
  induction f with
  | zero => intro l h; omega
  | succ fuel ih =>
    intro l h
    cases l with
    | nil => left; simp
    | cons r t =>
      by_cases hr : headerish r = true
      · have he : takeHeaderBlockLen (fuel + 1) (r :: t) =
            takeHeaderBlockLen fuel t + 1 := by
          simp [takeHeaderBlockLen, hr]
        rw [he] at h ⊢
        simpa using ih t (by omega)
      · have hr' : headerish r = false := by simpa using hr
        have he : takeHeaderBlockLen (fuel + 1) (r :: t) = 0 := by
          simp [takeHeaderBlockLen, hr']
        rw [he]
        right
        exact ⟨r, t, by simp, hr'⟩

/-- A block over a list whose second row is not `headerish` has length ≤ 1. -/
theorem blockLen_cons_le_one {x r : List String} {t : List (List String)}
    (h : headerish r = false) :
    takeHeaderBlockLen 10 (x :: r :: t) ≤ 1 := by
  by_cases hx : headerish x = true
  · simp [takeHeaderBlockLen, hx, h]
  · have hx' : headerish x = false := by simpa using hx
    simp [takeHeaderBlockLen, hx']

/-- A block over a singleton has length ≤ 1. -/
theorem blockLen_singleton (x : List String) :
    takeHeaderBlockLen 10 [x] ≤ 1 := by
  by_cases hx : headerish x = true
  · simp [takeHeaderBlockLen, hx]
  · have hx' : headerish x = false := by simpa using hx
    simp [takeHeaderBlockLen, hx']

/-- Unfolding of `merge_multiline_headers` on a non-empty input. -/
theorem merge_eq {rows : List (List String)} (indent_px : List Nat)
    (meta : List RowMeta) (h : rows ≠ []) :
    merge_multiline_headers rows indent_px meta =
      if takeHeaderBlockLen 10 (rows.map (padTo (maxWidth rows))) < 2
      then (rows.map (padTo (maxWidth rows)), indent_px, meta)
      else
        (mergedHeaderRow (maxWidth rows) (rows.map (padTo (maxWidth rows)))
            (takeHeaderBlockLen 10 (rows.map (padTo (maxWidth rows)))) ::
            (rows.map (padTo (maxWidth rows))).drop
              (takeHeaderBlockLen 10 (rows.map (padTo (maxWidth rows)))),
         indent_px.headD 0 ::
            indent_px.drop
              (takeHeaderBlockLen 10 (rows.map (padTo (maxWidth rows)))),
         meta.headD default ::
            meta.drop
              (takeHeaderBlockLen 10 (rows.map (padTo (maxWidth rows))))) := by
  simp only [merge_multiline_headers]
  rw [if_neg (by simpa using h)]

/-- On a non-empty uniform-width input whose header block is shorter than
2, the merger is the identity. -/
theorem merge_uniform_id {w : Nat} {l : List (List String)}
    (ind : List Nat) (meta : List RowMeta) (hne : l ≠ [])
    (hlen : ∀ r ∈ l, r.length = w) (hb : takeHeaderBlockLen 10 l < 2) :
    merge_multiline_headers l ind meta = (l, ind, meta) := by
  have hw : maxWidth l = w := maxWidth_const hlen hne
  have hmap : l.map (padTo (maxWidth l)) = l := by
    rw [hw]; exact map_padTo_id hlen
  rw [merge_eq ind meta hne, hmap, if_pos hb]

end SecStatements

namespace SecStatements

/-! ## C7 -/

/-- Eleven consecutive header rows: the 10-row cap truncates the first
header block. -/
def rows11 : List (List String) := List.replicate 11 ["L", "as of"]

/-- C7 counterexample: with eleven consecutive header rows the first
application merges only the first 10 (the `rows[:10]` cap) and leaves an
eleventh header row behind; the second application merges again, so the
rows (and the indent vector) differ between one and two applications. -/
theorem C7_counterexample_eleven_headers :
    ((fun m1 => merge_multiline_headers m1.1 m1.2.1 m1.2.2)
        (merge_multiline_headers rows11 (List.replicate 11 0)
          (List.replicate 11 default))).1 ≠
      (merge_multiline_headers rows11 (List.replicate 11 0)
        (List.replicate 11 default)).1 := by decide

/-- C7 (amended): header merging is idempotent whenever the header block of
the first application is not cut off by the 10-row cap (its length is below
10): applying the merger twice then yields exactly the same rows, indent
and metadata as applying it once.  (With ≥ 11 consecutive header rows the
block is truncated at 10 and a second application merges again.) -/
theorem C7_merge_idempotent (rows : List (List String)) (ind : List Nat)
    (meta : List RowMeta)
    (h : takeHeaderBlockLen 10 (rows.map (padTo (maxWidth rows))) < 10) :
    merge_multiline_headers (merge_multiline_headers rows ind meta).1
        (merge_multiline_headers rows ind meta).2.1
        (merge_multiline_headers rows ind meta).2.2 =
      merge_multiline_headers rows ind meta := by
  by_cases hrows : rows = []
  · subst hrows
    simp [merge_multiline_headers]
  · have hplen : ∀ r ∈ rows.map (padTo (maxWidth rows)), r.length = maxWidth rows :=
      fun r hr => mem_map_padTo_length hr
    have hpne : rows.map (padTo (maxWidth rows)) ≠ [] := by
      simpa using hrows
    rw [merge_eq ind meta hrows]
    by_cases hb : takeHeaderBlockLen 10 (rows.map (padTo (maxWidth rows))) < 2
    · rw [if_pos hb]
      exact merge_uniform_id ind meta hpne hplen hb
    · rw [if_neg hb]
      have hb2 : 2 ≤ takeHeaderBlockLen 10 (rows.map (padTo (maxWidth rows))) := by
        omega
      -- the first padded row is headerish, so the width is at least 2
      obtain ⟨r0, t0, hsplit, hr0⟩ :=
        blockLen_pos_head (f := 10) (l := rows.map (padTo (maxWidth rows)))
          (by omega)
      have hr0mem : r0 ∈ rows.map (padTo (maxWidth rows)) := by
        rw [hsplit]; simp
      have hwge : 2 ≤ maxWidth rows := by
        have := headerish_length hr0
        have := hplen r0 hr0mem
        omega
      have hmergedLen :
          (mergedHeaderRow (maxWidth rows) (rows.map (padTo (maxWidth rows)))
              (takeHeaderBlockLen 10 (rows.map (padTo (maxWidth rows))))).length =
            maxWidth rows := by
        simp [mergedHeaderRow, mergeCols]
        omega
      have hulen : ∀ r ∈ mergedHeaderRow (maxWidth rows)
            (rows.map (padTo (maxWidth rows)))
            (takeHeaderBlockLen 10 (rows.map (padTo (maxWidth rows)))) ::
            (rows.map (padTo (maxWidth rows))).drop
              (takeHeaderBlockLen 10 (rows.map (padTo (maxWidth rows)))),
          r.length = maxWidth rows := by
        intro r hr
        rcases List.mem_cons.mp hr with h | h
        · subst h; exact hmergedLen
        · exact hplen r (List.mem_of_mem_drop h)
      have hblock2 : takeHeaderBlockLen 10
          (mergedHeaderRow (maxWidth rows) (rows.map (padTo (maxWidth rows)))
              (takeHeaderBlockLen 10 (rows.map (padTo (maxWidth rows)))) ::
            (rows.map (padTo (maxWidth rows))).drop
              (takeHeaderBlockLen 10 (rows.map (padTo (maxWidth rows))))) < 2 := by
        rcases blockLen_stop 10 (rows.map (padTo (maxWidth rows))) h with
          hdrop | ⟨r, t, hdt, hrf⟩
        · rw [hdrop]
          have := blockLen_singleton (mergedHeaderRow (maxWidth rows)
            (rows.map (padTo (maxWidth rows)))
            (takeHeaderBlockLen 10 (rows.map (padTo (maxWidth rows)))))
          omega
        · rw [hdt]
          have := blockLen_cons_le_one
            (x := mergedHeaderRow (maxWidth rows)
              (rows.map (padTo (maxWidth rows)))
              (takeHeaderBlockLen 10 (rows.map (padTo (maxWidth rows)))))
            (t := t) hrf
          omega
      exact merge_uniform_id _ _ (by simp) hulen hblock2

/-- Three rows whose header block has length 2 (below the cap). -/
def rows3 : List (List String) :=
  [["L", "as of"], ["", "years ended"], ["Cash", "5"]]

/-- Witness for `C7_merge_idempotent` at a concrete table. -/
theorem C7_merge_idempotent_witness :
    merge_multiline_headers (merge_multiline_headers rows3 [0, 0, 0]
          [default, default, default]).1
        (merge_multiline_headers rows3 [0, 0, 0]
          [default, default, default]).2.1
        (merge_multiline_headers rows3 [0, 0, 0]
          [default, default, default]).2.2 =
      merge_multiline_headers rows3 [0, 0, 0] [default, default, default] :=
  C7_merge_idempotent rows3 [0, 0, 0] [default, default, default] (by decide)

end SecStatements

namespace SecStatements

/-! ## Indent inferencer (`infer_indent_levels`, sec_statements.py:641-704) -/

/-- Python `s.upper()` (ASCII). -/
def pyUpper (s : String) : String := ⟨s.data.map Char.toUpper⟩

/-- `label = (r[0] or "").strip()`, lowercased once since all three section
regexes carry `re.IGNORECASE`. -/
def labelOf (r : List String) : List Char :=
  (pyLower (pyStrip (r.headD ""))).data

/-- `^(operating|investing|financing)\s+activities:\s*$` (full match on the
lowercased label; `re.match` anchored at the start, `$` at the end). -/
def majorCfsMatch (l : List Char) : Bool :=
  ("operating".data.isPrefixOf l && majorCfsTail (l.drop 9)) ||
  ("investing".data.isPrefixOf l && majorCfsTail (l.drop 9)) ||
  ("financing".data.isPrefixOf l && majorCfsTail (l.drop 9))
where
  /-- `\s+activities:\s*$` at the start of `r`. -/
  majorCfsTail (r : List Char) : Bool :=
    let r' := r.dropWhile isPySpace
    decide (r'.length < r.length) && "activities:".data.isPrefixOf r' &&
      (r'.drop 11).all isPySpace

/-- `^adjustments\b` on the lowercased label. -/
def adjustMatch (l : List Char) : Bool :=
  "adjustments".data.isPrefixOf l &&
    (match l.drop 11 with | [] => true | e :: _ => !isWordChar e)

/-- `^changes in\b` on the lowercased label. -/
def changesMatch (l : List Char) : Bool :=
  "changes in".data.isPrefixOf l &&
    (match l.drop 10 with | [] => true | e :: _ => !isWordChar e)

/-- The three context booleans of the CFS state machine. -/
structure CfsState where
  in_major : Bool
  in_adjust : Bool
  in_changes : Bool
deriving Repr, DecidableEq

/-- All three flags start false. -/
def initCfs : CfsState := ⟨false, false, false⟩

/-- One loop iteration (for `i > 0`, statement kind CFS): returns the next
state and the level assigned to the row. -/
def cfsStep (st : CfsState) (r : List String) : CfsState × Nat :=
  let label := labelOf r
  if values_blank r then
    if majorCfsMatch label then (⟨true, false, false⟩, 0)
    else if adjustMatch label then (⟨st.in_major, true, false⟩, 1)
    else if changesMatch label then
      (⟨st.in_major, st.in_adjust, true⟩, if st.in_adjust then 2 else 1)
    else (st, if st.in_changes then 2 else if st.in_adjust then 1 else 0)
  else (st, if st.in_changes then 3 else if st.in_adjust then 2 else 1)

/-- The CFS state machine run over the rows after row 0. -/
def cfsRun (st : CfsState) : List (List String) → List Nat
  | [] => []
  | r :: rest => (cfsStep st r).2 :: cfsRun (cfsStep st r).1 rest

/-- The BS/IS branch: header rows (blank values) at level 0, data rows at
level 1. -/
def bsIsLevels (rows : List (List String)) : List Nat :=
  rows.map (fun r => if values_blank r then 0 else 1)

/-- `infer_indent_levels`: row 0 is level 0; later rows go through the CFS
state machine when `stmt.upper() == "CFS"`, else the BS/IS rule. -/
def infer_indent_levels (rows : List (List String)) (stmt : String) :
    List Nat :=
  match rows with
  | [] => []
  | _ :: rest =>
    if pyUpper stmt = "CFS" then 0 :: cfsRun initCfs rest
    else 0 :: bsIsLevels rest

/-- A blank-values row that resets `in_changes` (a major-activities or
adjustments header; these are the only assignments clearing the flag). -/
def clearsChanges (r : List String) : Bool :=
  values_blank r && (majorCfsMatch (labelOf r) || adjustMatch (labelOf r))

/-- A blank-values row that sets `in_changes` (the `^changes in\b` branch,
reached when the two earlier branches did not fire). -/
def setsChanges (r : List String) : Bool :=
  values_blank r && !majorCfsMatch (labelOf r) && !adjustMatch (labelOf r) &&
    changesMatch (labelOf r)

/-- How one step transforms the `in_changes` flag. -/
theorem cfsStep_in_changes (st : CfsState) (r : List String) :
    (cfsStep st r).1.in_changes =
      if clearsChanges r then false
      else if setsChanges r then true
      else st.in_changes := by
  by_cases hb : values_blank r = true
  · by_cases hM : majorCfsMatch (labelOf r) = true
    · simp [cfsStep, clearsChanges, setsChanges, hb, hM]
    · by_cases hA : adjustMatch (labelOf r) = true
      · simp [cfsStep, clearsChanges, setsChanges, hb, hM, hA]
      · by_cases hC : changesMatch (labelOf r) = true
        · simp [cfsStep, clearsChanges, setsChanges, hb, hM, hA, hC]
        · simp [cfsStep, clearsChanges, setsChanges, hb, hM, hA, hC]
  · simp [cfsStep, clearsChanges, setsChanges, hb]

/-- A step assigns level 3 exactly to a data row seen while `in_changes`. -/
theorem cfsStep_level3 (st : CfsState) (r : List String) :
    (cfsStep st r).2 = 3 ↔
      values_blank r = false ∧ st.in_changes = true := by
  by_cases hb : values_blank r = true
  · have h2 : (cfsStep st r).2 ≤ 2 := by
      unfold cfsStep
      simp only [hb, if_true]
      split_ifs <;> simp
    constructor
    · intro h; omega
    · rintro ⟨hbf, -⟩
      rw [hb] at hbf
      exact absurd hbf (by simp)
  · have hb' : values_blank r = false := by simpa using hb
    have he : (cfsStep st r).2 =
        if st.in_changes then 3 else if st.in_adjust then 2 else 1 := by
      simp [cfsStep, hb']
    rw [he, hb']
    constructor
    · intro h
      refine ⟨rfl, ?_⟩
      by_contra hc
      have hc' : st.in_changes = false := by simpa using hc
      rw [hc'] at h
      simp only [Bool.false_eq_true, if_false] at h
      split at h <;> omega
    · rintro ⟨-, hc⟩
      simp [hc]

/-- Where the CFS run emits level 3, the row is a data row and the
`in_changes` flag traces back either to the initial state (with no clearing
row before) or to a `^changes in\b` row with no clearing row after it. -/
theorem cfsRun_level3 :
    ∀ (l : List (List String)) (st : CfsState) (i : Nat),
      (cfsRun st l)[i]? = some 3 →
      values_blank (l.getD i []) = false ∧
      ((st.in_changes = true ∧
          ∀ k, k < i → clearsChanges (l.getD k []) = false) ∨
       (∃ j, j < i ∧ setsChanges (l.getD j []) = true ∧
          ∀ k, j < k → k < i → clearsChanges (l.getD k []) = false)) := by
  intro l
  induction l with
  | nil => intro st i h; simp [cfsRun] at h
  | cons r rest ih =>
    intro st i h
    rw [cfsRun] at h
    cases i with
    | zero =>
      simp only [List.getElem?_cons_zero, Option.some.injEq] at h
      obtain ⟨hdata, hch⟩ := (cfsStep_level3 st r).mp h
      exact ⟨by simpa using hdata, Or.inl ⟨hch, fun k hk => by omega⟩⟩
    | succ i' =>
      simp only [List.getElem?_cons_succ] at h
      obtain ⟨hdata, hrest⟩ := ih (cfsStep st r).1 i' h
      refine ⟨by simpa using hdata, ?_⟩
      rcases hrest with ⟨hst', hnc⟩ | ⟨j', hj', hset', hnc'⟩
      · rw [cfsStep_in_changes] at hst'
        by_cases hcl : clearsChanges r = true
        · rw [if_pos hcl] at hst'
          exact absurd hst' (by simp)
        · have hcl' : clearsChanges r = false := by simpa using hcl
          rw [if_neg (by simp [hcl'])] at hst'
          by_cases hset : setsChanges r = true
          · refine Or.inr ⟨0, by omega, by simpa using hset, ?_⟩
            intro k hk0 hk
            cases k with
            | zero => omega
            | succ k' =>
              simpa using hnc k' (by omega)
          · have hset2 : setsChanges r = false := by simpa using hset
            rw [if_neg (by simp [hset2])] at hst'
            refine Or.inl ⟨hst', ?_⟩
            intro k hk
            cases k with
            | zero => simpa using hcl'
            | succ k' =>
              simpa using hnc k' (by omega)
      · refine Or.inr ⟨j' + 1, by omega, by simpa using hset', ?_⟩
        intro k hkj hki
        cases k with
        | zero => omega
        | succ k' =>
          simpa using hnc' k' (by omega) (by omega)

end SecStatements

namespace SecStatements

/-! ## C3 -/

/-- A CFS table with a `Changes in …` header but no `Adjustments` header. -/
def exCfsRows : List (List String) :=
  [["Cash flow statement", "2024"],
   ["Changes in operating assets and liabilities:", ""],
   ["Accounts receivable", "5"]]

/-- C3 counterexample: on a CFS with a blank-values `Changes in …` row and
no row matching `^adjustments\b` at all, the inferencer still assigns
level 3 to the following data row — the Adjustments context claimed to be
required is not. -/
theorem C3_counterexample_changes_without_adjustments :
    infer_indent_levels exCfsRows "CFS" = [0, 1, 3] ∧
    exCfsRows.all
        (fun r => !(values_blank r && adjustMatch (labelOf r))) = true := by
  decide

/-- C3 (amended): on a CFS, indent inference assigns level 3 only to a
non-blank (data) row strictly after some blank-values row matching
`^changes in\b` (taken by the changes branch, i.e. not also matching the
major-activities or adjustments patterns), with no intervening blank-values
major-activities or adjustments header resetting the state; a preceding
`^adjustments\b` row is not required. -/
theorem C3_level3_only_in_changes_context (rows : List (List String))
    (i : Nat) (h : (infer_indent_levels rows "CFS")[i]? = some 3) :
    values_blank (rows.getD i []) = false ∧
    ∃ j, 0 < j ∧ j < i ∧ setsChanges (rows.getD j []) = true ∧
      ∀ k, j < k → k < i → clearsChanges (rows.getD k []) = false := by
  match rows with
  | [] => simp [infer_indent_levels] at h
  | r0 :: rest =>
    rw [infer_indent_levels, if_pos (by decide)] at h
    cases i with
    | zero => simp at h
    | succ i' =>
      simp only [List.getElem?_cons_succ] at h
      obtain ⟨hdata, hrest⟩ := cfsRun_level3 rest initCfs i' h
      refine ⟨by simpa using hdata, ?_⟩
      rcases hrest with ⟨hst, -⟩ | ⟨j', hj', hset', hnc'⟩
      · exact absurd hst (by simp [initCfs])
      · refine ⟨j' + 1, by omega, by omega, by simpa using hset', ?_⟩
        intro k hkj hki
        cases k with
        | zero => omega
        | succ k' =>
          simpa using hnc' k' (by omega) (by omega)

/-- Witness for `C3_level3_only_in_changes_context` at the concrete CFS
table above (`i = 2` carries level 3). -/
theorem C3_level3_only_in_changes_context_witness :
    values_blank (exCfsRows.getD 2 []) = false ∧
    ∃ j, 0 < j ∧ j < 2 ∧ setsChanges (exCfsRows.getD j []) = true ∧
      ∀ k, j < k → k < 2 → clearsChanges (exCfsRows.getD k []) = false :=
  C3_level3_only_in_changes_context exCfsRows 2 (by decide)

end SecStatements

namespace SecStatements

/-! ## Table extractor (`extract_table_rows`, sec_statements.py:427-492)

A parsed `<td>`/`<th>` cell is modelled by the data the extractor reads
from it: its collapsed text (`get_text(" ", strip=True)` with NBSP
replaced), its parsed `colspan`/`rowspan` (`int(cell.get(...) or "1")`
with default 1 on parse failure), and the two per-first-cell signals
`extract_indent_px` / `extract_concepts`; those two helpers' DOM/CSS
internals are abstracted as the `indentPx` and `concepts` fields of the
first cell. -/

structure Cell where
  text : String
  colspan : Int
  rowspan : Int
  indentPx : Nat
  concepts : List String
deriving Repr, DecidableEq

/-- `span_map: col_index -> (remaining_rows, text)`, as an association list
with unique keys. -/
abbrev SpanMap := List (Nat × Nat × String)

/-- Dict lookup. -/
def smFind (m : SpanMap) (c : Nat) : Option (Nat × String) :=
  match m.find? (fun e => e.1 == c) with
  | some (_, rem, txt) => some (rem, txt)
  | none => none

/-- `del span_map[col]`. -/
def smErase (m : SpanMap) (c : Nat) : SpanMap :=
  m.filter (fun e => e.1 != c)

/-- `span_map[col] = (rem, txt)`. -/
def smSet (m : SpanMap) (c : Nat) (rem : Nat) (txt : String) : SpanMap :=
  (c, rem, txt) :: smErase m c

/-- The mutable state of the row loop: the span map, the column cursor and
the row being built. -/
structure ExtSt where
  m : SpanMap
  col : Nat
  row : List String
deriving Repr

/-- `fill_from_span`: `while col in span_map` append the pending text,
decrement its remaining count (deleting at 0) and advance the cursor.  The
fuel `m.length + 1` always suffices: each iteration moves the cursor past
one of the map's (unique) keys. -/
def fillFromSpan : Nat → ExtSt → ExtSt
  | 0, st => st
  | fuel + 1, st =>
    match smFind st.m st.col with
    | none => st
    | some (rem, txt) =>
      let m' := if rem ≤ 1 then smErase st.m st.col
                else smSet st.m st.col (rem - 1) txt
      fillFromSpan fuel ⟨m', st.col + 1, st.row ++ [txt]⟩

/-- The inner `for _ in range(max(1, colspan))` loop: append the text,
record the pending rowspan at each occupied column, advance. -/
def emitCell (cell : Cell) : Nat → ExtSt → ExtSt
  | 0, st => st
  | reps + 1, st =>
    let m' := if cell.rowspan > 1
              then smSet st.m st.col (cell.rowspan - 1).toNat cell.text
              else st.m
    emitCell cell reps ⟨m', st.col + 1, st.row ++ [cell.text]⟩

/-- Processing one source cell: drain the span map at the cursor, then emit
the cell `max(1, colspan)` times. -/
def procCell (st : ExtSt) (cell : Cell) : ExtSt :=
  let st := fillFromSpan (st.m.length + 1) st
  emitCell cell (max 1 cell.colspan).toNat st

/-- One `<tr>`: initial drain, the cell loop, final drain; returns the
updated span map and the built row. -/
def buildRow (m : SpanMap) (tr : List Cell) : SpanMap × List String :=
  let st0 := fillFromSpan (m.length + 1) ⟨m, 0, []⟩
  let st1 := tr.foldl procCell st0
  let st2 := fillFromSpan (st1.m.length + 1) st1
  (st2.m, st2.row)

/-- The `<tr>` loop of `extract_table_rows` (before padding): skip a row
with no cells while the span map is empty; keep a built row only when some
cell is non-blank; the first cell supplies the indent and concept signals. -/
def extractCore (m : SpanMap) : List (List Cell) →
    List (List String) × List Nat × List RowMeta
  | [] => ([], [], [])
  | tr :: rest =>
    if tr.isEmpty && m.isEmpty then extractCore m rest
    else
      let p := buildRow m tr
      let ipx := match tr with | [] => 0 | c :: _ => c.indentPx
      let cps := match tr with | [] => [] | c :: _ => c.concepts
      let out := extractCore p.1 rest
      if p.2.any (fun x => !(pyStrip x).isEmpty) then
        (p.2 :: out.1, ipx :: out.2.1, ⟨cps, false⟩ :: out.2.2)
      else out

/-- `extract_table_rows`. -/
def extract_table_rows (trs : List (List Cell)) :
    List (List String) × List Nat × List RowMeta :=
  let e := extractCore [] trs
  if e.1.isEmpty then ([], [], [])
  else (e.1.map (padTo (maxWidth e.1)), e.2.1, e.2.2)

/-! ## Table selector & stitcher (`table_profile`,
`select_and_stitch_tables`, sec_statements.py:495-611) -/

/-- A cell that stays non-empty after NBSP-normalization and stripping. -/
def cellNonempty (c : String) : Bool := !(pyStrip (replaceNbsp c)).isEmpty

/-- Total number of cells satisfying `p` across all rows. -/
def countCells (p : String → Bool) (rows : List (List String)) : Nat :=
  (rows.map (fun r => (r.filter p).length)).sum

/-- `table_profile`: `(col_count, numeric_cells, year_cells, nonempty)`. -/
def table_profile (rows : List (List String)) : Nat × Nat × Nat × Nat :=
  if rows.isEmpty then (0, 0, 0, 0)
  else
    (maxWidth rows,
     countCells (fun c => cellNonempty c &&
       is_numericish (pyStrip (replaceNbsp c))) rows,
     countCells (fun c => cellNonempty c &&
       hasYear (pyStrip (replaceNbsp c))) rows,
     countCells cellNonempty rows)

/-- A scored candidate table: `(score, idx, rows, indent_px, meta,
col_count, numeric_cells)`. -/
structure Cand where
  score : Int
  idx : Nat
  rows : List (List String)
  ind : List Nat
  meta : List RowMeta
  colc : Nat
  numc : Nat
deriving Repr

/-- The candidate-building loop: extract every table, skip empty ones,
score `3·numeric + 2·years + min(row_count, 220)` with a 500 penalty when
`col_count < 2` or `nonempty < 12`. -/
def mkCandidates (tables : List (List (List Cell))) : List Cand :=
  tables.enum.filterMap (fun p =>
    let e := extract_table_rows p.2
    if e.1.isEmpty then none
    else
      let pr := table_profile e.1
      let base : Int := (pr.2.1 * 3 : Nat) + (pr.2.2.1 * 2 : Nat) +
        (min e.1.length 220 : Nat)
      let score := if pr.1 < 2 || pr.2.2.2 < 12 then base - 500 else base
      some ⟨score, p.1, e.1, e.2.1, e.2.2, pr.1, pr.2.1⟩)

/-- Stable insertion for `candidates.sort(key=lambda x: x[0], reverse=True)`. -/
def insertByScoreDesc (c : Cand) : List Cand → List Cand
  | [] => [c]
  | g :: t => if g.score < c.score then c :: g :: t
              else g :: insertByScoreDesc c t

/-- Stable descending sort by score. -/
def sortByScoreDesc (l : List Cand) : List Cand :=
  l.foldl (fun acc c => insertByScoreDesc c acc) []

/-- Stable insertion for `sorted(..., key=lambda x: x[0])` over indexes. -/
def insertByIdxAsc (c : Cand) : List Cand → List Cand
  | [] => [c]
  | g :: t => if c.idx < g.idx then c :: g :: t
              else g :: insertByIdxAsc c t

/-- Ascending sort by document index. -/
def sortByIdxAsc (l : List Cand) : List Cand :=
  l.foldl (fun acc c => insertByIdxAsc c acc) []

/-- `looks_like_continuation`: same column count, at least 8 non-empty
cells, and `numeric >= max(6, int(base_num * 0.12))` (the float product is
exact enough that truncation equals `base_num * 12 / 100` in naturals). -/
def looks_like_continuation (rows : List (List String))
    (base_cols base_num : Nat) : Bool :=
  let pr := table_profile rows
  pr.1 == base_cols && decide (8 ≤ pr.2.2.2) &&
    decide (max 6 (base_num * 12 / 100) ≤ pr.2.1)

/-- `norm_row`: pipe-joined, NBSP-normalized, stripped, lowercased cells. -/
def normRow (r : List String) : String :=
  String.intercalate " | " (r.map (fun c => pyLower (pyStrip (replaceNbsp c))))

/-- `drop` for one continuation: `t + 1` for the last `t < min(3, len)`
whose normalized row equals the primary's header signature, else 0. -/
def dropCount (headSig : String) (rows2 : List (List String)) : Nat :=
  (List.range (min 3 rows2.length)).foldl
    (fun acc t => if normRow (rows2.getD t []) = headSig then t + 1 else acc) 0

/-- Appending one continuation to the combined triple. -/
def stitchExtend (headSig : String)
    (acc : List (List String) × List Nat × List RowMeta) (c : Cand) :
    List (List String) × List Nat × List RowMeta :=
  let d := dropCount headSig c.rows
  (acc.1 ++ c.rows.drop d, acc.2.1 ++ c.ind.drop d, acc.2.2 ++ c.meta.drop d)

/-- `select_and_stitch_tables`: pick the highest-scoring table, walk up to
3 document-order successors while they look like continuations, drop their
repeated headers, and merge multi-line headers of the combined table. -/
def select_and_stitch_tables (tables : List (List (List Cell))) :
    List (List String) × List Nat × List RowMeta :=
  let cands := mkCandidates tables
  match sortByScoreDesc cands with
  | [] => ([], [], [])
  | best :: _ =>
    let byDoc := sortByIdxAsc cands
    let startPos := byDoc.findIdx (fun c => c.idx == best.idx)
    let headSig := normRow (best.rows.headD [])
    let conts := ((byDoc.drop (startPos + 1)).take 3).takeWhile
      (fun c => looks_like_continuation c.rows best.colc best.numc)
    let comb := conts.foldl (stitchExtend headSig)
      (best.rows, best.ind, best.meta)
    merge_multiline_headers comb.1 comb.2.1 comb.2.2

/-- The three vectors built by the extraction loop stay aligned: each
kept row appends one entry to each. -/
theorem extractCore_align :
    ∀ (trs : List (List Cell)) (m : SpanMap),
      (extractCore m trs).1.length = (extractCore m trs).2.1.length ∧
      (extractCore m trs).2.1.length = (extractCore m trs).2.2.length := by
  intro trs
  induction trs with
  | nil => intro m; simp [extractCore]
  | cons tr rest ih =>
    intro m
    rw [extractCore.eq_def]
    simp only
    split
    · exact ih m
    · obtain ⟨ha, hb⟩ := ih (buildRow m tr).1
      split
      · simp [ha, hb]
      · exact ⟨ha, hb⟩

/-- Alignment for `extract_table_rows`. -/
theorem extract_align (trs : List (List Cell)) :
    (extract_table_rows trs).1.length = (extract_table_rows trs).2.1.length ∧
    (extract_table_rows trs).2.1.length = (extract_table_rows trs).2.2.length := by
  obtain ⟨ha, hb⟩ := extractCore_align trs []
  rw [extract_table_rows]
  split
  · simp
  · simpa using ⟨ha, hb⟩

/-- Every row of `extract_table_rows` has length `maxWidth` of the output. -/
theorem extract_rows_uniform (trs : List (List Cell)) :
    ∀ r ∈ (extract_table_rows trs).1,
      r.length = maxWidth (extract_table_rows trs).1 := by
  rw [extract_table_rows]
  split
  · simp
  · rename_i hne
    intro r hr
    simp only at hr
    have hlen : r.length = maxWidth (extractCore [] trs).1 :=
      mem_map_padTo_length hr
    have hmapne : (extractCore [] trs).1.map
        (padTo (maxWidth (extractCore [] trs).1)) ≠ [] := by
      simp only [ne_eq, List.map_eq_nil_iff]
      simpa using hne
    rw [maxWidth_const (fun x hx => mem_map_padTo_length hx) hmapne]
    exact hlen

/-- Every candidate's three vectors are aligned. -/
theorem mkCandidates_align (tables : List (List (List Cell)))
    (c : Cand) (h : c ∈ mkCandidates tables) :
    c.rows.length = c.ind.length ∧ c.ind.length = c.meta.length := by
  obtain ⟨p, -, heq⟩ := List.mem_filterMap.mp h
  dsimp only at heq
  split at heq
  · exact absurd heq (by simp)
  · obtain ⟨ha, hb⟩ := extract_align p.2
    cases heq
    exact ⟨ha, hb⟩

/-- Membership is preserved by the score insertion. -/
theorem mem_insertByScoreDesc (c g : Cand) (l : List Cand) :
    g ∈ insertByScoreDesc c l ↔ g = c ∨ g ∈ l := by
  induction l with
  | nil => simp [insertByScoreDesc]
  | cons h t ih =>
    simp only [insertByScoreDesc]
    split <;> simp [ih] <;> tauto

/-- Membership is preserved by the score sort. -/
theorem mem_sortByScoreDesc (g : Cand) (l : List Cand) :
    g ∈ sortByScoreDesc l ↔ g ∈ l := by
  suffices h : ∀ acc, g ∈ l.foldl (fun acc c => insertByScoreDesc c acc) acc ↔
      g ∈ acc ∨ g ∈ l by
    simpa [sortByScoreDesc] using h []
  induction l with
  | nil => simp
  | cons c rest ih =>
    intro acc
    simp only [List.foldl_cons, ih, mem_insertByScoreDesc, List.mem_cons]
    tauto

/-- Membership is preserved by the index insertion. -/
theorem mem_insertByIdxAsc (c g : Cand) (l : List Cand) :
    g ∈ insertByIdxAsc c l ↔ g = c ∨ g ∈ l := by
  induction l with
  | nil => simp [insertByIdxAsc]
  | cons h t ih =>
    simp only [insertByIdxAsc]
    split <;> simp [ih] <;> tauto

/-- Membership is preserved by the index sort. -/
theorem mem_sortByIdxAsc (g : Cand) (l : List Cand) :
    g ∈ sortByIdxAsc l ↔ g ∈ l := by
  suffices h : ∀ acc, g ∈ l.foldl (fun acc c => insertByIdxAsc c acc) acc ↔
      g ∈ acc ∨ g ∈ l by
    simpa [sortByIdxAsc] using h []
  induction l with
  | nil => simp
  | cons c rest ih =>
    intro acc
    simp only [List.foldl_cons, ih, mem_insertByIdxAsc, List.mem_cons]
    tauto

/-- A member of a `takeWhile` is a member of the list. -/
theorem mem_of_takeWhile (p : Cand → Bool) :
    ∀ (l : List Cand) (c : Cand), c ∈ l.takeWhile p → c ∈ l := by
  intro l
  induction l with
  | nil => intro c h; simp [List.takeWhile] at h
  | cons x t ih =>
    intro c h
    rw [List.takeWhile] at h
    split at h
    · rcases List.mem_cons.mp h with h | h
      · simp [h]
      · exact List.mem_cons_of_mem x (ih c h)
    · simp at h

/-- The stitch fold keeps the three vectors aligned. -/
theorem stitch_fold_align (headSig : String) :
    ∀ (cs : List Cand)
      (acc : List (List String) × List Nat × List RowMeta),
      acc.1.length = acc.2.1.length → acc.2.1.length = acc.2.2.length →
      (∀ c ∈ cs, c.rows.length = c.ind.length ∧
        c.ind.length = c.meta.length) →
      (cs.foldl (stitchExtend headSig) acc).1.length =
          (cs.foldl (stitchExtend headSig) acc).2.1.length ∧
        (cs.foldl (stitchExtend headSig) acc).2.1.length =
          (cs.foldl (stitchExtend headSig) acc).2.2.length := by
  intro cs
  induction cs with
  | nil => intro acc h1 h2 _; exact ⟨h1, h2⟩
  | cons c t ih =>
    intro acc h1 h2 hall
    obtain ⟨hc1, hc2⟩ := hall c (by simp)
    rw [List.foldl_cons]
    refine ih _ ?_ ?_ (fun g hg => hall g (List.mem_cons_of_mem c hg))
    · simp only [stitchExtend, List.length_append, List.length_drop]
      omega
    · simp only [stitchExtend, List.length_append, List.length_drop]
      omega

/-- The header merger keeps aligned vectors aligned. -/
theorem merge_align (rows : List (List String)) (ind : List Nat)
    (meta : List RowMeta) (h1 : rows.length = ind.length)
    (h2 : ind.length = meta.length) :
    (merge_multiline_headers rows ind meta).1.length =
        (merge_multiline_headers rows ind meta).2.1.length ∧
      (merge_multiline_headers rows ind meta).2.1.length =
        (merge_multiline_headers rows ind meta).2.2.length := by
  by_cases hrows : rows = []
  · subst hrows; simp [merge_multiline_headers]
  · rw [merge_eq ind meta hrows]
    by_cases hb : takeHeaderBlockLen 10 (rows.map (padTo (maxWidth rows))) < 2
    · rw [if_pos hb]
      simp [h1, h2]
    · rw [if_neg hb]
      constructor
      · simp only [List.length_cons, List.length_drop, List.length_map]
        omega
      · simp only [List.length_cons, List.length_drop]
        omega

/-- Every row of the merger's output has length `maxWidth` of the output. -/
theorem merge_output_uniform (rows : List (List String)) (ind : List Nat)
    (meta : List RowMeta) :
    ∀ r ∈ (merge_multiline_headers rows ind meta).1,
      r.length = maxWidth (merge_multiline_headers rows ind meta).1 := by
  by_cases hrows : rows = []
  · subst hrows; simp [merge_multiline_headers]
  · have hplen : ∀ r ∈ rows.map (padTo (maxWidth rows)),
        r.length = maxWidth rows := fun r hr => mem_map_padTo_length hr
    have hpne : rows.map (padTo (maxWidth rows)) ≠ [] := by simpa using hrows
    rw [merge_eq ind meta hrows]
    by_cases hb : takeHeaderBlockLen 10 (rows.map (padTo (maxWidth rows))) < 2
    · rw [if_pos hb]
      intro r hr
      simp only at hr
      rw [maxWidth_const hplen hpne]
      exact hplen r hr
    · rw [if_neg hb]
      obtain ⟨r0, t0, hsplit, hr0⟩ :=
        blockLen_pos_head (f := 10) (l := rows.map (padTo (maxWidth rows)))
          (by omega)
      have hr0mem : r0 ∈ rows.map (padTo (maxWidth rows)) := by
        rw [hsplit]; simp
      have hwge : 2 ≤ maxWidth rows := by
        have := headerish_length hr0
        have := hplen r0 hr0mem
        omega
      have hmergedLen :
          (mergedHeaderRow (maxWidth rows) (rows.map (padTo (maxWidth rows)))
              (takeHeaderBlockLen 10 (rows.map (padTo (maxWidth rows))))).length =
            maxWidth rows := by
        simp [mergedHeaderRow, mergeCols]
        omega
      have hulen : ∀ r ∈ mergedHeaderRow (maxWidth rows)
            (rows.map (padTo (maxWidth rows)))
            (takeHeaderBlockLen 10 (rows.map (padTo (maxWidth rows)))) ::
            (rows.map (padTo (maxWidth rows))).drop
              (takeHeaderBlockLen 10 (rows.map (padTo (maxWidth rows)))),
          r.length = maxWidth rows := by
        intro r hr
        rcases List.mem_cons.mp hr with h | h
        · subst h; exact hmergedLen
        · exact hplen r (List.mem_of_mem_drop h)
      intro r hr
      rw [maxWidth_const hulen (by simp)]
      exact hulen r hr

end SecStatements

namespace SecStatements

/-! ## C9 -/

/-- C9: for every table list fed to the selector-stitcher and every single
table fed to the extractor, the produced rows, indent and row-metadata
vectors have equal length, and every produced row has the same number of
cells, the maximum row length (so the table is rectangular after padding). -/
theorem C9_extracted_table_invariants (tables : List (List (List Cell)))
    (trs : List (List Cell)) :
    ((select_and_stitch_tables tables).1.length =
        (select_and_stitch_tables tables).2.1.length ∧
      (select_and_stitch_tables tables).2.1.length =
        (select_and_stitch_tables tables).2.2.length ∧
      (select_and_stitch_tables tables).1.all
        (fun r => r.length ==
          maxWidth (select_and_stitch_tables tables).1) = true) ∧
    ((extract_table_rows trs).1.length =
        (extract_table_rows trs).2.1.length ∧
      (extract_table_rows trs).2.1.length =
        (extract_table_rows trs).2.2.length ∧
      (extract_table_rows trs).1.all
        (fun r => r.length == maxWidth (extract_table_rows trs).1) = true) := by
  refine ⟨?_, (extract_align trs).1, (extract_align trs).2, ?_⟩
  · cases hsort : sortByScoreDesc (mkCandidates tables) with
    | nil => simp [select_and_stitch_tables, hsort]
    | cons best t =>
      simp only [select_and_stitch_tables, hsort]
      have hbest : best ∈ mkCandidates tables :=
        (mem_sortByScoreDesc best _).mp (by rw [hsort]; simp)
      have hbesta := mkCandidates_align tables best hbest
      have hconts : ∀ c ∈ (((sortByIdxAsc (mkCandidates tables)).drop
            ((sortByIdxAsc (mkCandidates tables)).findIdx
              (fun c => c.idx == best.idx) + 1)).take 3).takeWhile
            (fun c => looks_like_continuation c.rows best.colc best.numc),
          c.rows.length = c.ind.length ∧ c.ind.length = c.meta.length := by
        intro c hc
        have h1 := mem_of_takeWhile _ _ c hc
        have h2 := List.take_subset 3 _ h1
        have h3 := List.drop_subset _ _ h2
        exact mkCandidates_align tables c ((mem_sortByIdxAsc c _).mp h3)
      have hfold := stitch_fold_align (normRow (best.rows.headD [])) _
        (best.rows, best.ind, best.meta) hbesta.1 hbesta.2 hconts
      refine ⟨(merge_align _ _ _ hfold.1 hfold.2).1,
        (merge_align _ _ _ hfold.1 hfold.2).2, ?_⟩
      simp only [List.all_eq_true, beq_iff_eq]
      exact merge_output_uniform _ _ _
  · simp only [List.all_eq_true, beq_iff_eq]
    exact extract_rows_uniform trs

end SecStatements

namespace SecStatements

/-! ## Scaffolding filter (`filter_scaffolding`, sec_statements.py:618-638) -/

/-- `SCAFFOLD_RE = \[(?:abstract|line items|table|axis|member)\]\s*$`
(case-insensitive, via `re.search`): after dropping trailing whitespace the
lowercased label ends in one of the bracketed tokens. -/
def scaffoldLabel (label : String) : Bool :=
  let t := ((pyLower label).data.reverse.dropWhile isPySpace).reverse
  "[abstract]".data.isSuffixOf t || "[line items]".data.isSuffixOf t ||
    "[table]".data.isSuffixOf t || "[axis]".data.isSuffixOf t ||
    "[member]".data.isSuffixOf t

/-- Some associated concept name ends (case-insensitively) in `abstract`. -/
def abstractConcept (concepts : List String) : Bool :=
  concepts.any (fun c => "abstract".data.isSuffixOf (pyLower c).data)

/-- `filter_scaffolding` (the `zip` truncates to the shortest vector):
rows with a blank label are dropped unconditionally; scaffold rows with
blank values are dropped unless `keep_abstract`; kept rows get the
`scaffold` flag recorded. -/
def filter_scaffolding : List (List String) → List Nat → List RowMeta →
    Bool → List (List String) × List Nat × List RowMeta
  | r :: rs, i :: itl, m :: ms, keep =>
    let rest := filter_scaffolding rs itl ms keep
    let label := pyStrip (r.headD "")
    if label.isEmpty then rest
    else
      let isAbs := scaffoldLabel label || abstractConcept m.concepts
      if !keep && isAbs && values_blank r then rest
      else (r :: rest.1, i :: rest.2.1,
        { m with scaffold := isAbs } :: rest.2.2)
  | _, _, _, _ => ([], [], [])

end SecStatements

namespace SecStatements

/-! ## C10 -/

/-- C10: the scaffolding filter drops every row whose label cell is blank
after stripping — even with scaffold-keeping enabled — so every row it
returns has a non-empty label. -/
theorem C10_filter_scaffolding_nonblank_labels
    (rows : List (List String)) (ind : List Nat) (meta : List RowMeta)
    (keep : Bool) :
    (filter_scaffolding rows ind meta keep).1.all
      (fun r => !(pyStrip (r.headD "")).isEmpty) = true := by
  induction rows generalizing ind meta with
  | nil => rw [filter_scaffolding.eq_def]; simp
  | cons r rs ih =>
    match ind, meta with
    | [], _ => rw [filter_scaffolding.eq_def]; simp
    | _ :: _, [] => rw [filter_scaffolding.eq_def]; simp
    | i :: itl, m :: ms =>
      rw [filter_scaffolding.eq_def]
      simp only
      split
      · exact ih itl ms
      · rename_i hlab
        split
        · exact ih itl ms
        · simp only [List.all_cons, Bool.and_eq_true]
          exact ⟨by simpa using hlab, ih itl ms⟩

end SecStatements

namespace SecStatements

/-! ## Indent resolver (`main`, sec_statements.py:805-812)

`round(v / 12.0)` is Python bankers' rounding of the exact rational
`v / 12` (the float quotient is exact enough not to move any value across
a rounding boundary): round half to even. -/

/-- `int(round((v or 0) / 12.0))` for a non-negative pixel count. -/
def roundDiv12 (v : Nat) : Nat :=
  let q := v / 12
  let r := v % 12
  if r < 6 then q
  else if 6 < r then q + 1
  else if q % 2 = 0 then q else q + 1

/-- The indent-resolution step of `main`: if every HTML-derived indent is
0, switch to the inferencer (`"inferred"`); else quantize pixels by
`round(px / 12)` (`"from_html"`). -/
def resolve_indent (rows : List (List String)) (indent_px : List Nat)
    (stmt : String) : String × List Nat :=
  if indent_px.all (fun v => v == 0) then
    ("inferred", infer_indent_levels rows stmt)
  else
    ("from_html", indent_px.map roundDiv12)

/-- The per-statement tail of `main`'s loop after table extraction:
scaffolding filter, then indent resolution. -/
def statement_indent (tables : List (List (List Cell))) (stmt : String)
    (keep_abstract : Bool) : String × List Nat :=
  let e := select_and_stitch_tables tables
  let f := filter_scaffolding e.1 e.2.1 e.2.2 keep_abstract
  resolve_indent f.1 f.2.1 stmt

/-- A single table whose header row's label cell carries a 24-pixel indent
signal (e.g. `style="padding-left:24px"`). -/
def exIndentedTable : List (List Cell) :=
  [[⟨"Assets", 1, 1, 24, []⟩, ⟨"2024", 1, 1, 0, []⟩],
   [⟨"Cash", 1, 1, 0, []⟩, ⟨"5", 1, 1, 0, []⟩],
   [⟨"Total", 1, 1, 0, []⟩, ⟨"10", 1, 1, 0, []⟩]]

end SecStatements

namespace SecStatements

/-! ## C5 -/

/-- C5 counterexample: a table whose first row's label cell carries a
24-pixel indent resolves in `from_html` mode to `indent = [2, 0, 0]` —
`indent[0]` is 2, not 0.  Nothing forces the header row's extracted pixel
indent to be zero. -/
theorem C5_counterexample_from_html_nonzero_head :
    statement_indent [exIndentedTable] "BS" false =
      ("from_html", [2, 0, 0]) := by decide

/-- C5 (amended): `indent[0] == 0` is guaranteed in `inferred` mode (for a
non-empty table): the inferencer pins row 0 to level 0.  In `from_html`
mode `indent[0] = round(px₀/12)`, which is 0 only when the header row's
extracted pixel indent is below 7 pixels — not in general. -/
theorem C5_inferred_head_zero (rows : List (List String))
    (indent_px : List Nat) (stmt : String) (hne : rows ≠ [])
    (hmode : (resolve_indent rows indent_px stmt).1 = "inferred") :
    (resolve_indent rows indent_px stmt).2.headD 99 = 0 := by
  by_cases hall : indent_px.all (fun v => v == 0) = true
  · rw [resolve_indent, if_pos hall]
    match rows with
    | r0 :: rest =>
      rw [infer_indent_levels]
      split <;> simp
  · rw [resolve_indent, if_neg hall] at hmode
    simp at hmode

/-- Witness for `C5_inferred_head_zero` on a concrete table with no HTML
indent. -/
theorem C5_inferred_head_zero_witness :
    (resolve_indent [["Assets", "2024"], ["Cash", "5"]] [0, 0] "BS").2.headD
      99 = 0 :=
  C5_inferred_head_zero [["Assets", "2024"], ["Cash", "5"]] [0, 0] "BS"
    (by decide) (by decide)

end SecStatements
